import Mathlib

/-!
Verification of the AlphaPig training orchestrator (`src/train_mxnet.py`)
against its natural-language specification.

The pipeline is shallowly embedded: board tensors become lists of lists of
rationals, numpy's `rot90` / `flipud` / `fliplr` / `reshape` / `flatten`
become the corresponding list operations, the `deque(maxlen=C)` replay
buffer becomes a keep-the-last-C list transformer, and the external
collaborators (neural network, game engine) become abstract function
parameters, exactly as the spec declares them out of scope.
-/

namespace AlphaPig

/-- A 2-D array (numpy matrix), row major. -/
abbrev Mat (α : Type) := List (List α)

/-- numpy `flipud`: reverse the rows (flip vertically). -/
def flipud {α : Type} (m : Mat α) : Mat α := m.reverse

/-- numpy `fliplr`: reverse each row (flip horizontally). -/
def fliplr {α : Type} (m : Mat α) : Mat α := m.map List.reverse

/-- numpy `rot90` with k = 1: rotate 90 degrees counterclockwise.
On `[[1,2],[3,4]]` this gives `[[2,4],[1,3]]`, matching numpy. -/
def rot90 {α : Type} (m : Mat α) : Mat α := m.transpose.reverse

/-- numpy `rot90(m, k)`: k iterated counterclockwise quarter turns. -/
def rotCCW {α : Type} (k : ℕ) (m : Mat α) : Mat α := rot90^[k] m

/-- numpy `reshape(h, w)` of a flat vector: h rows of w entries each. -/
def reshape {α : Type} : ℕ → ℕ → List α → Mat α
  | 0, _, _ => []
  | h + 1, w, v => v.take w :: reshape h w (v.drop w)

/-- One training triple `(state, mcts_prob, winner_z)`: the state is a stack
of channel matrices, the probability vector is flat of length H*W, and the
outcome is a scalar. -/
abbrev Sample := List (Mat ℚ) × List ℚ × ℚ

/-- `TrainPipeline.get_equi_data`, line for line: for each triple and each
`i in [1, 2, 3, 4]` it appends the rotated variant and then the variant that
is additionally flipped horizontally. -/
def get_equi_data (H W : ℕ) (playData : List Sample) : List Sample :=
  playData.flatMap (fun t =>
    [1, 2, 3, 4].flatMap (fun i =>
      let equiState := t.1.map (rotCCW i)
      let equiProb := rotCCW i (flipud (reshape H W t.2.1))
      [(equiState, (flipud equiProb).flatten, t.2.2),
       (equiState.map fliplr, (flipud (fliplr equiProb)).flatten, t.2.2)]))

/-- The augmentation of one triple as the spec words it: for each rotation
step k the pair (state rotated per channel, probability vector reshaped to
H×W, vertically flipped, rotated by k, vertically flipped again, flattened),
plus the horizontally mirrored variant of that rotated pair; the outcome is
copied unchanged. -/
def augmentSpec (H W : ℕ) (t : Sample) : List Sample :=
  [1, 2, 3, 4].flatMap (fun k =>
    let rotState := t.1.map (rotCCW k)
    let rotProbGrid := flipud (rotCCW k (flipud (reshape H W t.2.1)))
    [(rotState, rotProbGrid.flatten, t.2.2),
     (rotState.map fliplr, (fliplr rotProbGrid).flatten, t.2.2)])

lemma flipud_fliplr {α : Type} (m : Mat α) : flipud (fliplr m) = fliplr (flipud m) := by
  simp [flipud, fliplr]

lemma augmentSpec_length (H W : ℕ) (t : Sample) : (augmentSpec H W t).length = 8 := by
  simp [augmentSpec]

lemma get_equi_data_eq (H W : ℕ) (pd : List Sample) :
    get_equi_data H W pd = pd.flatMap (augmentSpec H W) := by
  unfold get_equi_data augmentSpec
  refine List.flatMap_congr (fun t _ => ?_)
  refine List.flatMap_congr (fun i _ => ?_)
  simp [flipud_fliplr]

/-- C1: the augmenter returns exactly 8 triples per input triple; each output
is, for some rotation step k among 1..4, either the rotated variant (state
rotated 90°×k counterclockwise per channel; probability vector reshaped to
H×W, vertically flipped, rotated by k, vertically flipped again, flattened)
or its horizontally mirrored variant, and the outcome scalars of the 8
outputs of each input triple all equal that triple's outcome scalar. -/
theorem c1_augmenter_eight_symmetries (H W : ℕ) (pd : List Sample) :
    get_equi_data H W pd = pd.flatMap (augmentSpec H W) ∧
    (get_equi_data H W pd).length = 8 * pd.length ∧
    (get_equi_data H W pd).map (fun x => x.2.2) =
      pd.flatMap (fun t => List.replicate 8 t.2.2) := by
  refine ⟨get_equi_data_eq H W pd, ?_, ?_⟩
  · rw [get_equi_data_eq]
    induction pd with
    | nil => rfl
    | cons t rest ih =>
      simp only [List.flatMap_cons, List.length_append, List.length_cons, ih,
        augmentSpec_length]
      ring
  · rw [get_equi_data_eq]
    induction pd with
    | nil => rfl
    | cons t rest ih =>
      simp only [List.flatMap_cons, List.map_append, ih]
      congr 1

/-- Keep the last `C` elements of a list, in order. -/
def takeLast {α : Type} (C : ℕ) (l : List α) : List α := (l.reverse.take C).reverse

/-- One `deque(maxlen=C).extend(xs)` call on `self.data_buffer`: append `xs`
at the tail, evicting from the head whatever exceeds the capacity `C`. -/
def dequeExtend {α : Type} (C : ℕ) (buf xs : List α) : List α := takeLast C (buf ++ xs)

lemma takeLast_length {α : Type} (C : ℕ) (l : List α) :
    (takeLast C l).length = min C l.length := by
  simp [takeLast]

lemma takeLast_of_length_le {α : Type} {C : ℕ} {l : List α} (h : l.length ≤ C) :
    takeLast C l = l := by
  unfold takeLast
  rw [List.take_of_length_le (by simpa using h), List.reverse_reverse]

lemma takeLast_append_takeLast {α : Type} (C : ℕ) (a b : List α) :
    takeLast C (takeLast C a ++ b) = takeLast C (a ++ b) := by
  simp only [takeLast, List.reverse_append, List.reverse_reverse,
    List.take_append_eq_append_take, List.take_take, List.reverse_inj]
  congr 3
  omega

lemma foldl_dequeExtend {α : Type} (C : ℕ) :
    ∀ (bs : List (List α)) (buf : List α), buf = takeLast C buf →
      bs.foldl (dequeExtend C) buf = takeLast C (buf ++ bs.flatten) := by
  intro bs
  induction bs with
  | nil => intro buf h; simpa using h
  | cons x rest ih =>
    intro buf h
    have hx : dequeExtend C buf x = takeLast C (dequeExtend C buf x) := by
      have : (dequeExtend C buf x).length ≤ C := by
        simp [dequeExtend, takeLast_length]
      exact (takeLast_of_length_le this).symm
    calc (x :: rest).foldl (dequeExtend C) buf
        = rest.foldl (dequeExtend C) (dequeExtend C buf x) := rfl
      _ = takeLast C (dequeExtend C buf x ++ rest.flatten) := ih _ hx
      _ = takeLast C ((buf ++ x) ++ rest.flatten) := by
          rw [dequeExtend, takeLast_append_takeLast]
      _ = takeLast C (buf ++ (x :: rest).flatten) := by
          simp [List.append_assoc]

/-- C2: starting from an empty buffer, after a sequence of extend calls whose
batches total more than C samples, the buffer holds exactly C samples, namely
the C most-recently-inserted ones in their original relative insertion order
(the tail of the concatenation of all inserted batches); and after every
prefix of the call sequence the size is at most C. -/
theorem c2_buffer_bound {α : Type} (C : ℕ) (batches : List (List α))
    (h : C < batches.flatten.length) :
    (batches.foldl (dequeExtend C) []).length = C ∧
    batches.foldl (dequeExtend C) [] = takeLast C batches.flatten ∧
    ∀ k, ((batches.take k).foldl (dequeExtend C) []).length ≤ C := by
  have hrep : ∀ bs : List (List α),
      bs.foldl (dequeExtend C) [] = takeLast C bs.flatten := by
    intro bs
    simpa using foldl_dequeExtend C bs [] (by simp [takeLast])
  refine ⟨?_, hrep batches, ?_⟩
  · rw [hrep, takeLast_length]
    omega
  · intro k
    rw [hrep, takeLast_length]
    omega

/-- Witness for C2 at capacity 2 with extend calls `[1,2]`, `[3]`. -/
theorem c2_buffer_bound_witness :
    ([[1, 2], [3]].foldl (dequeExtend 2) ([] : List ℕ)).length = 2 ∧
    [[1, 2], [3]].foldl (dequeExtend 2) ([] : List ℕ) =
      takeLast 2 [[1, 2], [3]].flatten :=
  ⟨(c2_buffer_bound 2 [[1, 2], [3]] (by decide)).1,
   (c2_buffer_bound 2 [[1, 2], [3]] (by decide)).2.1⟩

/-- The learning-rate-multiplier adaptation after the epoch loop of
`policy_update` (0.05 = 1/20, 1.5 = 3/2):
`if kl > kl_targ * 2 and lr_multiplier > 0.05: lr_multiplier /= 1.5`
`elif kl < kl_targ / 2 and lr_multiplier < 20: lr_multiplier *= 1.5`. -/
def adaptLR (klTarg m kl : ℚ) : ℚ :=
  if klTarg * 2 < kl ∧ 1 / 20 < m then m / (3 / 2)
  else if kl < klTarg / 2 ∧ m < 20 then m * (3 / 2)
  else m

/-- The KL divergence measured in `policy_update`:
`np.mean(np.sum(old_probs * (np.log(old_probs + 1e-10) - np.log(new_probs + 1e-10)), axis=1))`.
The real-valued `np.log` is abstracted as a parameter `lg` (the claims under
verification depend on the shape of this expression, not on properties of the
logarithm). -/
def klCalc (lg : ℚ → ℚ) (oldP newP : List (List ℚ)) : ℚ :=
  let rows := List.zipWith
    (fun o n => (List.zipWith
      (fun a b => a * (lg (a + 1 / 10 ^ 10) - lg (b + 1 / 10 ^ 10))) o n).sum)
    oldP newP
  rows.sum / (rows.length : ℚ)

/-- The network state after `n` calls of `train_step` (the network is the
external policy/value collaborator; `ts` returns the new network state
together with the reported loss and entropy of that step). -/
def netIter {σ : Type} (ts : σ → σ × ℚ × ℚ) (s : σ) : ℕ → σ
  | 0 => s
  | n + 1 => (ts (netIter ts s n)).1

/-- The KL value measured at 0-based epoch `i` of the update loop: `oldP`
against the policy output on the batch after `i + 1` train steps. -/
def klAt {σ : Type} (ts : σ → σ × ℚ × ℚ) (pv : σ → List (List ℚ)) (lg : ℚ → ℚ)
    (oldP : List (List ℚ)) (s : σ) (i : ℕ) : ℚ :=
  klCalc lg oldP (pv (netIter ts s (i + 1)))

/-- The `for i in range(self.epochs)` loop of `policy_update`: each epoch
performs one train step, measures the KL of the new policy output against the
fixed `oldP` snapshot, and breaks when KL exceeds `klTarg * 4`. Returns the
final network state, the number of epochs performed, and the last epoch's
`(loss, entropy, kl)` — `none` when no epoch ran (those Python locals would
be unbound). -/
def epochLoop {σ : Type} (ts : σ → σ × ℚ × ℚ) (pv : σ → List (List ℚ))
    (lg : ℚ → ℚ) (oldP : List (List ℚ)) (klTarg : ℚ) :
    ℕ → σ → σ × ℕ × Option (ℚ × ℚ × ℚ)
  | 0, s => (s, 0, none)
  | n + 1, s =>
    let step := ts s
    let kl := klCalc lg oldP (pv step.1)
    if klTarg * 4 < kl then (step.1, 1, some (step.2.1, step.2.2, kl))
    else
      let r := epochLoop ts pv lg oldP klTarg n step.1
      (r.1, r.2.1 + 1, some (r.2.2.getD (step.2.1, step.2.2, kl)))

/-- `TrainPipeline.policy_update` after the mini-batch has been drawn: the
batch is fixed inside the collaborator closures `ts` (one `train_step` on the
batch at the pre-computed learning rate) and `pv` (`policy_value` on the
batch). It snapshots `old_probs`, runs the epoch loop, adapts the multiplier
from the final KL, and returns the new network state, the new multiplier and
the final `(loss, entropy)`; `none` models the unbound-local failure when the
epoch count is zero. -/
def policy_update {σ : Type} (ts : σ → σ × ℚ × ℚ) (pv : σ → List (List ℚ))
    (lg : ℚ → ℚ) (klTarg : ℚ) (epochs : ℕ) (lrMult : ℚ) (s : σ) :
    Option (σ × ℚ × ℚ × ℚ) :=
  let oldP := pv s
  let r := epochLoop ts pv lg oldP klTarg epochs s
  match r.2.2 with
  | none => none
  | some (l, e, kl) => some (r.1, adaptLR klTarg lrMult kl, l, e)

/-- `TrainPipeline.policy_evaluate`: play `nGames` games, game `i` started
with `start_player = i % 2`; the external `game.start_play` is the oracle
`g` (call index, start player) and, modelled from the spec ("tallies
wins/losses/draws from the learner's perspective") and the tally keys of the
missing `game` module, reports 1 when the learner (the first passed player)
wins, 2 when the baseline wins, and -1 for a tie. The returned ratio is
`1.0 * (win_cnt[1] + 0.5 * win_cnt[-1]) / n_games`. -/
def policy_evaluate (g : ℕ → ℕ → ℤ) (nGames : ℕ) : ℚ :=
  let winners := (List.range nGames).map (fun i => g i (i % 2))
  (((winners.count 1 : ℕ) : ℚ) + 1 / 2 * ((winners.count (-1) : ℕ) : ℚ)) / (nGames : ℚ)

/-- The evaluation bookkeeping in `TrainPipeline.run` (lines 237-245), acting
on the pair (best_win_ratio, pure_mcts_playout_num): on a new best the ratio
is recorded, and if it reaches 0.98 while the playout budget is below 8000,
the budget is escalated by 1000 and the ratio reset to 0.0. -/
def evalStep (bp : ℚ × ℕ) (wr : ℚ) : ℚ × ℕ :=
  if bp.1 < wr then
    if 98 / 100 ≤ wr ∧ bp.2 < 8000 then (0, bp.2 + 1000) else (wr, bp.2)
  else bp

/-- The cross-cycle mutable state of `TrainPipeline.run`: the replay buffer,
the network (abstract collaborator state), the best win ratio and the pure
MCTS playout budget. -/
structure PipeState (σ : Type) where
  buffer : List Sample
  net : σ
  best : ℚ
  playout : ℕ

/-- One cycle `i` of the `for i in range(self.game_batch_num)` loop of
`TrainPipeline.run`: extend the buffer with the augmented self-play data of
the cycle, run `policy_update` only when the buffer size exceeds the batch
size (the update's effect on the network is the abstract `upd`; the routine
checkpoint at every 50th cycle has no orchestrator-state effect), and every
`checkFreq` cycles run the evaluation bookkeeping on the win ratio reported
by the external evaluation (oracle `ew` of cycle index and network state).
Also returns whether the update step ran. -/
def runCycle {σ : Type} (bufSize batchSize checkFreq H W : ℕ) (upd : σ → σ)
    (ew : ℕ → σ → ℚ) (i : ℕ) (playData : List Sample) (st : PipeState σ) :
    PipeState σ × Bool :=
  let buf := dequeExtend bufSize st.buffer (get_equi_data H W playData)
  let net := if batchSize < buf.length then upd st.net else st.net
  let bp := if (i + 1) % checkFreq = 0
    then evalStep (st.best, st.playout) (ew i net)
    else (st.best, st.playout)
  (⟨buf, net, bp.1, bp.2⟩, decide (batchSize < buf.length))

lemma netIter_shift {σ : Type} (ts : σ → σ × ℚ × ℚ) (s : σ) :
    ∀ n, netIter ts s (n + 1) = netIter ts (ts s).1 n := by
  intro n
  induction n with
  | zero => rfl
  | succ n ih =>
    show (ts (netIter ts s (n + 1))).1 = (ts (netIter ts (ts s).1 n)).1
    rw [ih]

lemma klAt_shift {σ : Type} (ts : σ → σ × ℚ × ℚ) (pv : σ → List (List ℚ))
    (lg : ℚ → ℚ) (oldP : List (List ℚ)) (s : σ) (i : ℕ) :
    klAt ts pv lg oldP s (i + 1) = klAt ts pv lg oldP (ts s).1 i := by
  unfold klAt
  rw [netIter_shift]

lemma epochLoop_spec {σ : Type} (ts : σ → σ × ℚ × ℚ) (pv : σ → List (List ℚ))
    (lg : ℚ → ℚ) (oldP : List (List ℚ)) (t : ℚ) :
    ∀ (E : ℕ) (s : σ),
      (epochLoop ts pv lg oldP t E s).2.1 ≤ E ∧
      (epochLoop ts pv lg oldP t E s).1 =
        netIter ts s (epochLoop ts pv lg oldP t E s).2.1 ∧
      (0 < E → 0 < (epochLoop ts pv lg oldP t E s).2.1) ∧
      (∀ i, i + 1 < (epochLoop ts pv lg oldP t E s).2.1 →
        klAt ts pv lg oldP s i ≤ t * 4) ∧
      ((epochLoop ts pv lg oldP t E s).2.1 < E →
        t * 4 < klAt ts pv lg oldP s ((epochLoop ts pv lg oldP t E s).2.1 - 1)) ∧
      (0 < E → (epochLoop ts pv lg oldP t E s).2.2 =
        some ((ts (netIter ts s ((epochLoop ts pv lg oldP t E s).2.1 - 1))).2.1,
              (ts (netIter ts s ((epochLoop ts pv lg oldP t E s).2.1 - 1))).2.2,
              klAt ts pv lg oldP s ((epochLoop ts pv lg oldP t E s).2.1 - 1))) := by
  intro E
  induction E with
  | zero =>
    intro s
    simp [epochLoop, netIter]
  | succ n ih =>
    intro s
    by_cases h : t * 4 < klCalc lg oldP (pv (ts s).1)
    · have hres : epochLoop ts pv lg oldP t (n + 1) s =
          ((ts s).1, 1, some ((ts s).2.1, (ts s).2.2, klCalc lg oldP (pv (ts s).1))) := by
        simp [epochLoop, h]
      simp only [hres]
      refine ⟨by omega, by simp [netIter], fun _ => by omega, ?_, ?_, ?_⟩
      · intro i hi
        omega
      · intro _
        simpa [klAt, netIter] using h
      · intro _
        simp [klAt, netIter]
    · have hres : epochLoop ts pv lg oldP t (n + 1) s =
          ((epochLoop ts pv lg oldP t n (ts s).1).1,
           (epochLoop ts pv lg oldP t n (ts s).1).2.1 + 1,
           some ((epochLoop ts pv lg oldP t n (ts s).1).2.2.getD
             ((ts s).2.1, (ts s).2.2, klCalc lg oldP (pv (ts s).1)))) := by
        simp [epochLoop, h]
      obtain ⟨h1, h2, h3, h4, h5, h6⟩ := ih (ts s).1
      simp only [hres]
      refine ⟨by omega, ?_, fun _ => by omega, ?_, ?_, ?_⟩
      · rw [netIter_shift]
        exact h2
      · intro i hi
        match i with
        | 0 =>
          simpa [klAt, netIter] using le_of_not_lt h
        | j + 1 =>
          rw [klAt_shift]
          exact h4 j (by omega)
      · intro hlt
        have hpn : (epochLoop ts pv lg oldP t n (ts s).1).2.1 < n := by omega
        have hp0 : 0 < (epochLoop ts pv lg oldP t n (ts s).1).2.1 := h3 (by omega)
        have hshift : klAt ts pv lg oldP s ((epochLoop ts pv lg oldP t n (ts s).1).2.1) =
            klAt ts pv lg oldP (ts s).1 ((epochLoop ts pv lg oldP t n (ts s).1).2.1 - 1) := by
          have heq : (epochLoop ts pv lg oldP t n (ts s).1).2.1 - 1 + 1 =
              (epochLoop ts pv lg oldP t n (ts s).1).2.1 := by omega
          nth_rewrite 1 [← heq]
          rw [klAt_shift]
        simp only [Nat.add_sub_cancel]
        rw [hshift]
        exact h5 hpn
      · intro _
        simp only [Nat.add_sub_cancel]
        rcases Nat.eq_zero_or_pos n with hn | hn
        · subst hn
          have hp : (epochLoop ts pv lg oldP t 0 (ts s).1) = ((ts s).1, 0, none) := rfl
          simp [hp, klAt, netIter]
        · have hp0 : 0 < (epochLoop ts pv lg oldP t n (ts s).1).2.1 := h3 hn
          have heq : (epochLoop ts pv lg oldP t n (ts s).1).2.1 - 1 + 1 =
              (epochLoop ts pv lg oldP t n (ts s).1).2.1 := by omega
          rw [h6 hn]
          simp only [Option.getD_some, Option.some.injEq]
          have hnet : netIter ts s ((epochLoop ts pv lg oldP t n (ts s).1).2.1) =
              netIter ts (ts s).1 ((epochLoop ts pv lg oldP t n (ts s).1).2.1 - 1) := by
            nth_rewrite 1 [← heq]
            rw [netIter_shift]
          have hkl : klAt ts pv lg oldP s ((epochLoop ts pv lg oldP t n (ts s).1).2.1) =
              klAt ts pv lg oldP (ts s).1 ((epochLoop ts pv lg oldP t n (ts s).1).2.1 - 1) := by
            nth_rewrite 1 [← heq]
            rw [klAt_shift]
          rw [hnet, hkl]

lemma evalStep_cases (b : ℚ) (p : ℕ) (wr : ℚ) :
    b ≤ (evalStep (b, p) wr).1 ∨
    ((evalStep (b, p) wr).1 = 0 ∧ p < 8000 ∧ 98 / 100 ≤ wr ∧
      (evalStep (b, p) wr).2 = p + 1000) := by
  unfold evalStep
  split_ifs with h1 h2
  · exact Or.inr ⟨rfl, h2.2, h2.1, rfl⟩
  · exact Or.inl (le_of_lt h1)
  · exact Or.inl (le_refl b)

/-- C3 counterexample: a concrete two-cycle run of the orchestrator loop
(check frequency 1, initial best ratio 0, playout budget 1000) in which the
evaluation of cycle 0 reports 1/2 and that of cycle 1 reports 99/100: after
cycle 0 the best ratio is 1/2, but after cycle 1 the escalation branch resets
it to 0, so the best ratio after the later cycle is strictly below the best
ratio after the earlier one. -/
theorem c3_counterexample :
    ((runCycle 100 100 1 1 1 (fun u : Unit => u)
        (fun i _ => if i = 0 then 1 / 2 else 99 / 100) 1 []
        ((runCycle 100 100 1 1 1 (fun u : Unit => u)
          (fun i _ => if i = 0 then 1 / 2 else 99 / 100) 0 []
          ⟨[], (), 0, 1000⟩).1)).1).best <
    ((runCycle 100 100 1 1 1 (fun u : Unit => u)
        (fun i _ => if i = 0 then 1 / 2 else 99 / 100) 0 []
        ⟨[], (), 0, 1000⟩).1).best := by
  norm_num [runCycle, dequeExtend, takeLast, get_equi_data, evalStep]

/-- C3 amended: across one cycle of the main loop the best win ratio never
decreases, except when the cycle's evaluation triggers the baseline
escalation (a new best of at least 0.98 while the playout budget is below
8000), in which case the best ratio is reset to 0 and the budget escalates
by 1000. -/
theorem c3_best_ratio_monotone_amended {σ : Type}
    (bufSize batchSize checkFreq H W : ℕ) (upd : σ → σ) (ew : ℕ → σ → ℚ)
    (i : ℕ) (pd : List Sample) (st : PipeState σ) :
    st.best ≤ ((runCycle bufSize batchSize checkFreq H W upd ew i pd st).1).best ∨
    (((runCycle bufSize batchSize checkFreq H W upd ew i pd st).1).best = 0 ∧
      st.playout < 8000 ∧
      ((runCycle bufSize batchSize checkFreq H W upd ew i pd st).1).playout =
        st.playout + 1000) := by
  unfold runCycle
  by_cases hc : (i + 1) % checkFreq = 0
  · simp only [hc, if_true]
    exact evalStep_cases st.best st.playout _ |>.imp id (fun h => ⟨h.1, h.2.1, h.2.2.2⟩)
  · simp only [hc, if_false]
    exact Or.inl (le_refl st.best)

/-- C4 counterexample: with target KL 1/50 and starting multiplier 1 (the
configured value, inside (0.05, 20]), eight successive updates each measuring
KL equal to 1 drive the multiplier to (2/3)^8 = 256/6561 ≈ 0.039, which is
not strictly greater than 0.05, refuting the claimed bound (0.05, 20]. -/
theorem c4_counterexample :
    List.foldl (adaptLR (1 / 50)) 1 (List.replicate 8 1) < 1 / 20 := by
  norm_num [adaptLR, List.replicate, List.foldl]

/-- C4 amended: the guards are checked before scaling, so the multiplier is
not confined to (0.05, 20]; instead, if it starts strictly between 0.05/1.5 =
1/30 and 20 × 1.5 = 30 (the configured start 1.0 does), it remains strictly
between 1/30 and 30 after every sequence of multiplier adaptations. -/
theorem c4_multiplier_bounds_amended (t m : ℚ) (kls : List ℚ)
    (h1 : 1 / 30 < m) (h2 : m < 30) :
    1 / 30 < kls.foldl (adaptLR t) m ∧ kls.foldl (adaptLR t) m < 30 := by
  induction kls generalizing m with
  | nil => exact ⟨h1, h2⟩
  | cons kl rest ih =>
    have step : 1 / 30 < adaptLR t m kl ∧ adaptLR t m kl < 30 := by
      unfold adaptLR
      split_ifs with hA hB
      · have hm := hA.2
        constructor <;> [nlinarith; nlinarith]
      · have hm := hB.2
        constructor <;> [nlinarith; nlinarith]
      · exact ⟨h1, h2⟩
    rw [List.foldl_cons]
    exact ih (adaptLR t m kl) step.1 step.2

/-- Witness for C4's amended bound at target 1/50, start 1, one KL sample. -/
theorem c4_multiplier_bounds_amended_witness :
    1 / 30 < List.foldl (adaptLR (1 / 50)) 1 [1] ∧
    List.foldl (adaptLR (1 / 50)) 1 [1] < 30 :=
  c4_multiplier_bounds_amended (1 / 50) 1 [1] (by norm_num) (by norm_num)

/-- C7: in a cycle of the main loop, the update step runs exactly when the
replay buffer size after the cycle's collection strictly exceeds the batch
size; when it is at or below the batch size the network is left untouched
and the cycle still completes (the rest of the cycle is computed as usual,
with no error path). -/
theorem c7_update_guard {σ : Type} (bufSize batchSize checkFreq H W : ℕ)
    (upd : σ → σ) (ew : ℕ → σ → ℚ) (i : ℕ) (pd : List Sample)
    (st : PipeState σ) :
    ((runCycle bufSize batchSize checkFreq H W upd ew i pd st).2 = true ↔
      batchSize <
        ((runCycle bufSize batchSize checkFreq H W upd ew i pd st).1).buffer.length) ∧
    ((runCycle bufSize batchSize checkFreq H W upd ew i pd st).2 = false →
      ((runCycle bufSize batchSize checkFreq H W upd ew i pd st).1).net = st.net) := by
  unfold runCycle
  constructor
  · simp
  · intro h
    simp only [decide_eq_false_iff_not] at h
    simp [h]

/-- Witness for C7 with a one-sample buffer and batch size 0: the update
step runs. -/
theorem c7_update_guard_witness :
    (runCycle 10 0 5 1 1 (fun u : Unit => u) (fun _ _ => 0) 0 []
      ⟨[([], [], 0)], (), 0, 1000⟩).2 = true :=
  (c7_update_guard 10 0 5 1 1 (fun u : Unit => u) (fun _ _ => 0) 0 []
    ⟨[([], [], 0)], (), 0, 1000⟩).1.mpr (by decide)

/-- C8: once the playout budget of the pure-MCTS baseline is at or above
8000, a qualifying evaluation (win ratio above the current best, which has
already reached 0.98) records the new best without resetting it to 0 and
leaves the budget unchanged; indeed no evaluation outcome whatsoever can
increment the budget any further. -/
theorem c8_escalation_ceiling (best : ℚ) (playout : ℕ) (wr : ℚ)
    (hb : 98 / 100 ≤ best) (hp : 8000 ≤ playout) (hq : best < wr) :
    evalStep (best, playout) wr = (wr, playout) ∧ wr ≠ 0 ∧
    ∀ w', (evalStep (best, playout) w').2 = playout := by
  have hnot : ¬ playout < 8000 := by omega
  refine ⟨?_, ?_, ?_⟩
  · unfold evalStep
    rw [if_pos hq, if_neg (fun hcon => hnot hcon.2)]
  · intro h0
    rw [h0] at hq
    linarith
  · intro w'
    unfold evalStep
    split_ifs with h1 h2
    · exact absurd h2.2 hnot
    · rfl
    · rfl

/-- Witness for C8 at best ratio 98/100, budget 8000, win ratio 99/100. -/
theorem c8_escalation_ceiling_witness :
    evalStep (98 / 100, 8000) (99 / 100) = (99 / 100, 8000) ∧
    (99 / 100 : ℚ) ≠ 0 :=
  ⟨(c8_escalation_ceiling (98 / 100) 8000 (99 / 100)
      (by norm_num) (by norm_num) (by norm_num)).1,
   (c8_escalation_ceiling (98 / 100) 8000 (99 / 100)
      (by norm_num) (by norm_num) (by norm_num)).2.1⟩

/-- C9: the evaluator plays exactly nGames games, passing first-player index
i % 2 for game i, and returns (learner wins + 0.5 × draws) / nGames, where
game i is a learner win when the external game (oracle g over call index and
start player) reports 1 and a draw when it reports -1. -/
theorem c9_policy_evaluate_tally (g : ℕ → ℕ → ℤ) (n : ℕ) :
    ((List.range n).map (fun i => g i (i % 2))).length = n ∧
    policy_evaluate g n =
      ((((List.range n).filter (fun i => g i (i % 2) == 1)).length : ℚ) +
        1 / 2 * (((List.range n).filter (fun i => g i (i % 2) == -1)).length : ℚ)) /
        (n : ℚ) := by
  refine ⟨by simp, ?_⟩
  unfold policy_evaluate
  simp only [List.count, List.countP_map, List.countP_eq_length_filter,
    List.filter_map, List.length_map, Function.comp]
  rfl

/-- C6: within one policy update the epoch loop performs at most E epochs;
it runs past an epoch only when that epoch's measured KL is at most
4×target_KL, and whenever it stops before exhausting E epochs the stopping
epoch's KL strictly exceeds 4×target_KL (so it stops at the first such
epoch); every epoch's KL is `klCalc` — the mean over the batch of the sum
over actions of old_probs × (log(old_probs + 1e-10) − log(new_probs +
1e-10)) — taken against `pv s`, the network's output before the first
epoch, which is never refreshed between epochs (`klAt` fixes this snapshot
as its old-probability argument for every epoch index). -/
theorem c6_epoch_loop_kl_early_stop {σ : Type} (ts : σ → σ × ℚ × ℚ)
    (pv : σ → List (List ℚ)) (lg : ℚ → ℚ) (t : ℚ) (E : ℕ) (s : σ) :
    (epochLoop ts pv lg (pv s) t E s).2.1 ≤ E ∧
    (0 < E → 0 < (epochLoop ts pv lg (pv s) t E s).2.1) ∧
    (∀ i, i + 1 < (epochLoop ts pv lg (pv s) t E s).2.1 →
      klAt ts pv lg (pv s) s i ≤ t * 4) ∧
    ((epochLoop ts pv lg (pv s) t E s).2.1 < E →
      t * 4 < klAt ts pv lg (pv s) s ((epochLoop ts pv lg (pv s) t E s).2.1 - 1)) ∧
    (0 < E → (epochLoop ts pv lg (pv s) t E s).2.2 =
      some ((ts (netIter ts s ((epochLoop ts pv lg (pv s) t E s).2.1 - 1))).2.1,
            (ts (netIter ts s ((epochLoop ts pv lg (pv s) t E s).2.1 - 1))).2.2,
            klAt ts pv lg (pv s) s ((epochLoop ts pv lg (pv s) t E s).2.1 - 1))) := by
  obtain ⟨h1, h2, h3, h4, h5, h6⟩ := epochLoop_spec ts pv lg (pv s) t E s
  exact ⟨h1, h3, h4, h5, h6⟩

/-- C5: after the epoch loop, the multiplier returned by `policy_update` is
exactly the three-way rule applied to the final measured KL: divided by 1.5
when that KL exceeds 2×target_KL and the multiplier exceeds 0.05, multiplied
by 1.5 when the KL is below 0.5×target_KL and the multiplier is below 20,
and unchanged otherwise. -/
theorem c5_multiplier_three_way_rule {σ : Type} (ts : σ → σ × ℚ × ℚ)
    (pv : σ → List (List ℚ)) (lg : ℚ → ℚ) (t m : ℚ) (E : ℕ) (s : σ)
    (hE : 0 < E) :
    Option.map (fun out => out.2.1) (policy_update ts pv lg t E m s) =
      some (if t * 2 < klAt ts pv lg (pv s) s
                ((epochLoop ts pv lg (pv s) t E s).2.1 - 1) ∧ 1 / 20 < m
            then m / (3 / 2)
            else if klAt ts pv lg (pv s) s
                ((epochLoop ts pv lg (pv s) t E s).2.1 - 1) < t / 2 ∧ m < 20
            then m * (3 / 2)
            else m) := by
  obtain ⟨-, -, -, -, -, h6⟩ := epochLoop_spec ts pv lg (pv s) t E s
  simp only [policy_update]
  rw [h6 hE]
  rfl

/-- C10: `policy_update` with a configured epoch count of zero hits the
unbound-local failure (the loop body that binds kl, loss and entropy never
runs), modelled as `none`; with at least one epoch it always returns a value,
whose loss and entropy are those reported by the train step of the last
performed epoch, alongside the multiplier adapted from the final KL. -/
theorem c10_policy_update_needs_one_epoch {σ : Type} (ts : σ → σ × ℚ × ℚ)
    (pv : σ → List (List ℚ)) (lg : ℚ → ℚ) (t m : ℚ) (s : σ) :
    policy_update ts pv lg t 0 m s = none ∧
    ∀ E, 0 < E →
      policy_update ts pv lg t E m s =
        some ((epochLoop ts pv lg (pv s) t E s).1,
          adaptLR t m (klAt ts pv lg (pv s) s
            ((epochLoop ts pv lg (pv s) t E s).2.1 - 1)),
          (ts (netIter ts s ((epochLoop ts pv lg (pv s) t E s).2.1 - 1))).2.1,
          (ts (netIter ts s ((epochLoop ts pv lg (pv s) t E s).2.1 - 1))).2.2) := by
  constructor
  · rfl
  · intro E hE
    obtain ⟨-, -, -, -, -, h6⟩ := epochLoop_spec ts pv lg (pv s) t E s
    simp only [policy_update]
    rw [h6 hE]

/-- A concrete network-state collaborator for witnesses: the state counts
train steps; every step reports loss 10 and entropy 20. -/
def demoTs : ℕ → ℕ × ℚ × ℚ := fun n => (n + 1, 10, 20)

/-- A concrete policy-output collaborator for witnesses. -/
def demoPv : ℕ → List (List ℚ) := fun n => [[1 / ((n : ℚ) + 1)]]

/-- Witness for C6 with two configured epochs: at least one epoch runs. -/
theorem c6_epoch_loop_kl_early_stop_witness :
    0 < (epochLoop demoTs demoPv id (demoPv 0) (1 / 100) 2 0).2.1 :=
  (c6_epoch_loop_kl_early_stop demoTs demoPv id (1 / 100) 2 0).2.1 (by decide)

/-- Witness for C5 at one configured epoch. -/
theorem c5_multiplier_three_way_rule_witness :
    Option.map (fun out => out.2.1)
        (policy_update demoTs demoPv id (1 / 100) 1 10 0) =
      some (if (1 : ℚ) / 100 * 2 < klAt demoTs demoPv id (demoPv 0) 0
                ((epochLoop demoTs demoPv id (demoPv 0) (1 / 100) 1 0).2.1 - 1) ∧
              (1 : ℚ) / 20 < 10
            then 10 / (3 / 2)
            else if klAt demoTs demoPv id (demoPv 0) 0
                ((epochLoop demoTs demoPv id (demoPv 0) (1 / 100) 1 0).2.1 - 1) <
                  1 / 100 / 2 ∧ (10 : ℚ) < 20
            then 10 * (3 / 2)
            else 10) :=
  c5_multiplier_three_way_rule demoTs demoPv id (1 / 100) 10 1 0 (by decide)

/-- Witness for C10 at one configured epoch. -/
theorem c10_policy_update_needs_one_epoch_witness :
    policy_update demoTs demoPv id (1 / 100) 1 1 0 =
      some ((epochLoop demoTs demoPv id (demoPv 0) (1 / 100) 1 0).1,
        adaptLR (1 / 100) 1 (klAt demoTs demoPv id (demoPv 0) 0
          ((epochLoop demoTs demoPv id (demoPv 0) (1 / 100) 1 0).2.1 - 1)),
        (demoTs (netIter demoTs 0
          ((epochLoop demoTs demoPv id (demoPv 0) (1 / 100) 1 0).2.1 - 1))).2.1,
        (demoTs (netIter demoTs 0
          ((epochLoop demoTs demoPv id (demoPv 0) (1 / 100) 1 0).2.1 - 1))).2.2) :=
  (c10_policy_update_needs_one_epoch demoTs demoPv id (1 / 100) 1 0).2 1 (by decide)

end AlphaPig
